import Mathlib

/-!
Verification of the candidate-submission analysis tool.

The repository's source under `src/` contains `app.py`, the HTTP layer; the
text-analysis module `utils.py` (the Metrics Engine, the AI-likelihood scorer
and the autopilot stub) is referenced by `app.py` (`from utils import
analyse_file`) but is not part of the sources available here, so those
components are modelled from the specification.  The filename-sanitisation
logic in `do_POST` (app.py lines 118-120) is embedded directly from the code.

Strings are modelled as `List Char`; the spec's floats are modelled as exact
rationals `ℚ` (the formulas involved are plain field arithmetic).
-/

namespace AIDetect

/-- The apostrophe character (code 39). -/
def apos : Char := Char.ofNat 39

/-- Modelled from the spec (§4.1, missing `utils.py`): a character that may
appear in a word token — alphanumerics, with apostrophes permitted inside
words. -/
def tokenChar (c : Char) : Bool := c.isAlphanum || c = apos

/-- Modelled from the spec (§4.1): sentence-terminal punctuation. -/
def isTerminator (c : Char) : Bool := c = '.' || c = '!' || c = '?'

/-- Split a list of characters at every character satisfying `p`; the
separators are dropped and the fragments (possibly empty) are returned in
order.  Always returns at least one fragment. -/
def splitOnP (p : Char → Bool) : List Char → List (List Char)
  | [] => [[]]
  | c :: cs =>
    if p c then [] :: splitOnP p cs
    else
      match splitOnP p cs with
      | [] => [[c]]
      | f :: r => (c :: f) :: r

/-- Strip leading and trailing apostrophes from a token, so that apostrophes
are kept only inside words (spec §4.1: "apostrophes inside words
permitted"). -/
def stripApos (t : List Char) : List Char :=
  ((t.dropWhile (fun c => c = apos)).reverse.dropWhile (fun c => c = apos)).reverse

/-- Modelled from the spec (§4.1, missing `utils.py`): tokenize into words —
maximal runs of alphanumeric characters, apostrophes permitted inside
words. -/
def wordsOf (s : List Char) : List (List Char) :=
  ((splitOnP (fun c => !tokenChar c) s).map stripApos).filter (fun t => !t.isEmpty)

/-- The words of the text, lower-cased (spec §4.1: case-insensitive for
uniqueness comparison). -/
def lowerWordsOf (s : List Char) : List (List Char) :=
  (wordsOf s).map (List.map Char.toLower)

/-- Modelled from the spec (§4.1): word_count = total tokens. -/
def wordCount (s : List Char) : Nat := (wordsOf s).length

/-- Modelled from the spec (§4.1): unique_word_count = size of the set of
lower-cased tokens. -/
def uniqueWordCount (s : List Char) : Nat := (lowerWordsOf s).dedup.length

/-- Modelled from the spec (§4.1): unique_ratio = unique_word_count /
word_count, defined as 0.0 when word_count = 0. -/
def uniqueRatioOf (s : List Char) : ℚ :=
  if wordCount s = 0 then 0 else (uniqueWordCount s : ℚ) / (wordCount s : ℚ)

/-- Modelled from the spec (§4.1, missing `utils.py`): sentence segmentation —
split on the terminators `.`, `!`, `?`; a fragment is kept when it holds word
material (an alphanumeric character), so consecutive terminators and word-free
fragments are discarded, and the spec's "minimum 1 if any word exists, else 0"
clause holds by construction. -/
def sentencesOf (s : List Char) : List (List Char) :=
  (splitOnP isTerminator s).filter (fun f => f.any Char.isAlphanum)

/-- Modelled from the spec (§4.1): sentence_count = number of non-empty
fragments. -/
def sentenceCount (s : List Char) : Nat := (sentencesOf s).length

/-- Modelled from the spec (§4.1): avg_sentence_length = word_count /
sentence_count, 0.0 if sentence_count = 0. -/
def avgSentenceLength (s : List Char) : ℚ :=
  if sentenceCount s = 0 then 0 else (wordCount s : ℚ) / (sentenceCount s : ℚ)

/-- Modelled from the spec (§4.1): the vowel characters a/e/i/o/u/y (words are
lower-cased before syllable estimation). -/
def isVowel (c : Char) : Bool :=
  c = 'a' || c = 'e' || c = 'i' || c = 'o' || c = 'u' || c = 'y'

/-- Count the maximal runs of vowels in a word; `prevVowel` records whether the
previous character was a vowel. -/
def vowelGroupsAux (prevVowel : Bool) : List Char → Nat
  | [] => 0
  | c :: cs => (if isVowel c && !prevVowel then 1 else 0) + vowelGroupsAux (isVowel c) cs

/-- The number of vowel-group runs in a word (spec §4.1: consecutive vowel
characters count as one syllable group). -/
def vowelGroups (w : List Char) : Nat := vowelGroupsAux false w

/-- Modelled from the spec (§4.1, missing `utils.py`): per-word syllable
heuristic — count vowel-group runs, subtract one for a silent trailing "e"
unless the word is very short (here: length ≤ 2), enforce a minimum of one
syllable. -/
def syllablesOfWord (w : List Char) : Nat :=
  max 1 (if 2 < w.length ∧ w.getLast? = some 'e' then vowelGroups w - 1 else vowelGroups w)

/-- Modelled from the spec (§4.1): syllable_count = sum over all words of the
per-word estimates. -/
def syllableCount (s : List Char) : Nat := ((lowerWordsOf s).map syllablesOfWord).sum

/-- Modelled from the spec (§4.1): flesch_reading_ease = 206.835 − 1.015 ×
avg_sentence_length − 84.6 × (syllable_count / word_count), with
word_count = 0 guarded to yield 0.0. -/
def fleschReadingEase (s : List Char) : ℚ :=
  if wordCount s = 0 then 0
  else 206835/1000 - 1015/1000 * avgSentenceLength s
        - 846/10 * ((syllableCount s : ℚ) / (wordCount s : ℚ))

/-- The Metrics value object (spec §3). -/
structure Metrics where
  word_count : Nat
  unique_word_count : Nat
  unique_ratio : ℚ
  sentence_count : Nat
  avg_sentence_length : ℚ
  syllable_count : Nat
  flesch_reading_ease : ℚ
  deriving DecidableEq, Repr

/-- Modelled from the spec (§4.1, missing `utils.py`): the Text Metrics
Engine — given raw text, return Metrics. -/
def computeMetrics (s : List Char) : Metrics :=
  { word_count := wordCount s
    unique_word_count := uniqueWordCount s
    unique_ratio := uniqueRatioOf s
    sentence_count := sentenceCount s
    avg_sentence_length := avgSentenceLength s
    syllable_count := syllableCount s
    flesch_reading_ease := fleschReadingEase s }

/-- Clamp a rational to the interval [0,1] (spec §4.2: "mapped into [0,1] …
with clamping at the bounds"). -/
def clamp01 (x : ℚ) : ℚ := max 0 (min 1 x)

/-- Modelled from the spec (§4.2, missing `utils.py`): the raw (unclamped)
AI-likelihood signal; the exact weights are an implementer choice, the
contract being boundedness after clamping and determinism. -/
def aiRawLikelihood (m : Metrics) : ℚ :=
  3/10 + 1/2 * m.unique_ratio +
    (if 40 ≤ m.flesch_reading_ease ∧ m.flesch_reading_ease ≤ 60 then 1/5 else 0)

/-- Modelled from the spec (§4.2): ai_likelihood, the clamped heuristic
score. -/
def aiLikelihoodScore (m : Metrics) : ℚ := clamp01 (aiRawLikelihood m)

/-- Modelled from the spec (§4.2, missing `utils.py`): the raw (unclamped)
"rigorous" signal, a second, independently-weighted combination. -/
def aiRawRigorous (m : Metrics) : ℚ :=
  2/5 * m.unique_ratio + 3/100 * m.avg_sentence_length + 1/1000 * m.flesch_reading_ease

/-- Modelled from the spec (§4.2): ai_rigorous_score, the clamped secondary
score. -/
def aiRigorousScore (m : Metrics) : ℚ := clamp01 (aiRawRigorous m)

/-- The suffix ".py" recognized by the autopilot stub. -/
def pySuffix : List Char := ['.', 'p', 'y']

/-- Modelled from the spec (§4.3, missing `utils.py`): the one recognized
"autopilot-eligible" submission type — Python files, detected by file
extension (app.py's docstring: "For Python submissions, a basic autopilot
grading stub"). -/
def isPySubmission (filename : List Char) : Bool := pySuffix.isSuffixOf filename

/-- Modelled from the spec (§4.3): the canned textual report simulating
automated grading. -/
def autopilotReport : List Char :=
  ("Autopilot grading stub: ran sample checks, 3/5 tests passed.").toList

/-- Modelled from the spec (§4.3, missing `utils.py`): the Autopilot Stub —
a canned report for the recognized type, the empty-string sentinel for every
other type; never fails. -/
def autopilotStub (filename _content : List Char) : List Char :=
  if isPySubmission filename then autopilotReport else []

/-- The results bundle (spec §3): Metrics plus the two AI scores and the
autopilot text. -/
structure AnalysisResult where
  metrics : Metrics
  ai_likelihood : ℚ
  ai_rigorous_score : ℚ
  autopilot_result : List Char
  deriving DecidableEq, Repr

/-- Modelled from the spec (§6, missing `utils.py`): the one logical operation
`analyze` — document text (plus the filename hint for the autopilot stub) to
an AnalysisResult. -/
def analyse (filename text : List Char) : AnalysisResult :=
  let m := computeMetrics text
  { metrics := m
    ai_likelihood := aiLikelihoodScore m
    ai_rigorous_score := aiRigorousScore m
    autopilot_result := autopilotStub filename text }

/-- Division that signals an error on a zero divisor, used to show the
analysis never actually divides by zero. -/
def qdivE (a b : ℚ) : Except String ℚ :=
  if b = 0 then Except.error "division by zero" else Except.ok (a / b)

/-- unique_ratio with its division checked: the spec's word_count = 0 guard,
and otherwise an explicit checked division. -/
def uniqueRatioE (s : List Char) : Except String ℚ :=
  if wordCount s = 0 then Except.ok 0
  else qdivE (uniqueWordCount s : ℚ) (wordCount s : ℚ)

/-- avg_sentence_length with its division checked. -/
def avgSentenceLengthE (s : List Char) : Except String ℚ :=
  if sentenceCount s = 0 then Except.ok 0
  else qdivE (wordCount s : ℚ) (sentenceCount s : ℚ)

/-- flesch_reading_ease with its division checked. -/
def fleschReadingEaseE (s : List Char) : Except String ℚ :=
  if wordCount s = 0 then Except.ok 0
  else do
    let asl ← avgSentenceLengthE s
    let spw ← qdivE (syllableCount s : ℚ) (wordCount s : ℚ)
    Except.ok (206835/1000 - 1015/1000 * asl - 846/10 * spw)

/-- The Metrics Engine with every division checked: an error result would mean
a division by zero slipped past the guards. -/
def computeMetricsE (s : List Char) : Except String Metrics := do
  let ur ← uniqueRatioE s
  let asl ← avgSentenceLengthE s
  let fre ← fleschReadingEaseE s
  Except.ok
    { word_count := wordCount s
      unique_word_count := uniqueWordCount s
      unique_ratio := ur
      sentence_count := sentenceCount s
      avg_sentence_length := asl
      syllable_count := syllableCount s
      flesch_reading_ease := fre }

/-- `analyse` with every division checked. -/
def analyseE (filename text : List Char) : Except String AnalysisResult := do
  let m ← computeMetricsE text
  Except.ok
    { metrics := m
      ai_likelihood := aiLikelihoodScore m
      ai_rigorous_score := aiRigorousScore m
      autopilot_result := autopilotStub filename text }

/-! ### Filename sanitisation, embedded from app.py lines 118-120

`filename = os.path.basename(file_field.filename)`
`safe_filename = filename.replace('/', '_').replace('..', '')`
-/

/-- `os.path.basename` on POSIX: the part of the path after the last `/`. -/
def basename (p : List Char) : List Char :=
  (p.reverse.takeWhile (fun c => c ≠ '/')).reverse

/-- Python's `str.replace('/', '_')`: every slash becomes an underscore. -/
def replaceSlash (s : List Char) : List Char :=
  s.map (fun c => if c = '/' then '_' else c)

/-- Python's `str.replace('..', '')`: one left-to-right pass removing each
non-overlapping occurrence of `..`. -/
def removeDotDot : List Char → List Char
  | [] => []
  | [c] => [c]
  | c :: d :: cs =>
    if c = '.' ∧ d = '.' then removeDotDot cs
    else c :: removeDotDot (d :: cs)

/-- The stored filename computed by `do_POST` (app.py lines 118-119). -/
def safeFilename (p : List Char) : List Char :=
  removeDotDot (replaceSlash (basename p))

/-- Whether a character list holds two consecutive dots (the `..` substring). -/
def hasDD : List Char → Bool
  | c :: d :: cs => (c = '.' && d = '.') || hasDD (d :: cs)
  | _ => false

/-! ### Helper lemmas -/

theorem removeDotDot_nil : removeDotDot [] = [] := rfl

theorem removeDotDot_single (c : Char) : removeDotDot [c] = [c] := rfl

theorem removeDotDot_cons₂ (c d : Char) (cs : List Char) :
    removeDotDot (c :: d :: cs) =
      if c = '.' ∧ d = '.' then removeDotDot cs else c :: removeDotDot (d :: cs) := rfl

theorem mem_removeDotDot : ∀ (s : List Char) (x : Char), x ∈ removeDotDot s → x ∈ s
  | [], _, h => h
  | [_], _, h => h
  | c :: d :: cs, x, h => by
    rw [removeDotDot_cons₂] at h
    split at h
    · exact List.mem_cons_of_mem _ (List.mem_cons_of_mem _ (mem_removeDotDot cs x h))
    · rcases List.mem_cons.mp h with rfl | h'
      · exact List.mem_cons_self _ _
      · exact List.mem_cons_of_mem _ (mem_removeDotDot (d :: cs) x h')

theorem head?_removeDotDot_cons (d : Char) (cs : List Char) (hd : d ≠ '.') :
    (removeDotDot (d :: cs)).head? = some d := by
  cases cs with
  | nil => rfl
  | cons e es =>
    rw [removeDotDot_cons₂, if_neg (fun hc => hd hc.1)]
    rfl

theorem hasDD_cons₂ (c d : Char) (cs : List Char) :
    hasDD (c :: d :: cs) = ((c = '.' && d = '.') || hasDD (d :: cs)) := rfl

theorem hasDD_tail (a : Char) (t : List Char) (h : hasDD (a :: t) = false) :
    hasDD t = false := by
  cases t with
  | nil => rfl
  | cons e es =>
    rw [hasDD_cons₂, Bool.or_eq_false_iff] at h
    exact h.2

theorem hasDD_removeDotDot : ∀ s : List Char, hasDD (removeDotDot s) = false
  | [] => rfl
  | [_] => rfl
  | c :: d :: cs => by
    rw [removeDotDot_cons₂]
    split
    · exact hasDD_removeDotDot cs
    · rename_i hnot
      have ih := hasDD_removeDotDot (d :: cs)
      rcases hr : removeDotDot (d :: cs) with _ | ⟨e, es⟩
      · rfl
      · rw [hr] at ih
        rw [hasDD_cons₂, ih, Bool.or_false]
        by_cases hc : c = '.'
        · have hd : d ≠ '.' := fun hdd => hnot ⟨hc, hdd⟩
          have hhead := head?_removeDotDot_cons d cs hd
          rw [hr] at hhead
          simp only [List.head?_cons, Option.some.injEq] at hhead
          subst hhead
          simp [hd]
        · simp [hc]

theorem not_dd_infix_of_hasDD (l : List Char) (h : hasDD l = false) :
    ∀ pre suf : List Char, pre ++ '.' :: '.' :: suf ≠ l := by
  induction l with
  | nil => intro pre suf heq; exact absurd heq (by simp)
  | cons a t ih =>
    intro pre suf heq
    cases pre with
    | nil =>
      simp only [List.nil_append, List.cons.injEq] at heq
      obtain ⟨rfl, heq'⟩ := heq
      cases t with
      | nil => exact absurd heq' (by simp)
      | cons b t' =>
        simp only [List.cons.injEq] at heq'
        obtain ⟨rfl, -⟩ := heq'
        rw [hasDD_cons₂] at h
        simp at h
    | cons p ps =>
      simp only [List.cons_append, List.cons.injEq] at heq
      exact ih (hasDD_tail a t h) ps suf heq.2

theorem not_mem_replaceSlash (s : List Char) : '/' ∉ replaceSlash s := by
  intro h
  rw [replaceSlash] at h
  rcases List.mem_map.mp h with ⟨c, _, hc⟩
  by_cases hcs : c = '/'
  · rw [if_pos hcs] at hc
    exact absurd hc (by decide)
  · rw [if_neg hcs] at hc
    exact hcs hc

theorem splitOnP_ne_nil (p : Char → Bool) (s : List Char) : splitOnP p s ≠ [] := by
  cases s with
  | nil => simp [splitOnP]
  | cons c cs =>
    rw [splitOnP]
    split
    · simp
    · split <;> simp

theorem flatten_splitOnP (p : Char → Bool) :
    ∀ s : List Char, (splitOnP p s).flatten = s.filter (fun c => !p c)
  | [] => by simp [splitOnP]
  | c :: cs => by
    have ih := flatten_splitOnP p cs
    rw [splitOnP]
    by_cases h : p c
    · rw [if_pos h]
      simp [h, ih]
    · rw [if_neg h]
      rcases hsp : splitOnP p cs with _ | ⟨f, r⟩
      · exact absurd hsp (splitOnP_ne_nil p cs)
      · rw [hsp] at ih
        simp only [List.flatten_cons, List.cons_append]
        rw [← List.flatten_cons, ih]
        simp [h]

theorem exists_char_splitOnP (p q : Char → Bool) (s : List Char) :
    (∃ f ∈ splitOnP p s, ∃ c ∈ f, q c = true) ↔
      ∃ c ∈ s, (!p c) = true ∧ q c = true := by
  constructor
  · rintro ⟨f, hf, c, hc, hq⟩
    have hmem : c ∈ (splitOnP p s).flatten := List.mem_flatten.mpr ⟨f, hf, hc⟩
    rw [flatten_splitOnP] at hmem
    exact ⟨c, (List.mem_filter.mp hmem).1, (List.mem_filter.mp hmem).2, hq⟩
  · rintro ⟨c, hcs, hp, hq⟩
    have hmem : c ∈ (splitOnP p s).flatten := by
      rw [flatten_splitOnP]
      exact List.mem_filter.mpr ⟨hcs, hp⟩
    rcases List.mem_flatten.mp hmem with ⟨f, hf, hcf⟩
    exact ⟨f, hf, c, hcf, hq⟩

theorem forall_mem_dropWhile_iff (p : Char → Bool) :
    ∀ t : List Char, (∀ x ∈ t.dropWhile p, p x = true) ↔ ∀ x ∈ t, p x = true
  | [] => by simp
  | c :: cs => by
    have ih := forall_mem_dropWhile_iff p cs
    by_cases h : p c = true
    · rw [List.dropWhile_cons, if_pos h, ih]
      simp [h]
    · rw [List.dropWhile_cons, if_neg h]

theorem stripApos_eq_nil_iff (t : List Char) :
    stripApos t = [] ↔ ∀ c ∈ t, c = apos := by
  rw [stripApos, List.reverse_eq_nil_iff, List.dropWhile_eq_nil_iff]
  constructor
  · intro h c hc
    have := (forall_mem_dropWhile_iff _ t).mp (fun x hx => by
      have := h x (List.mem_reverse.mpr hx)
      simpa using this) c hc
    simpa using this
  · intro h x hx
    have hxt : x ∈ t := List.dropWhile_sublist _ |>.mem (List.mem_reverse.mp hx)
    simpa using h x hxt

theorem isAlphanum_apos : apos.isAlphanum = false := by decide

theorem tokenChar_iff (c : Char) :
    (tokenChar c = true ∧ c ≠ apos) ↔ c.isAlphanum = true := by
  constructor
  · rintro ⟨ht, hne⟩
    rw [tokenChar, Bool.or_eq_true] at ht
    rcases ht with h | h
    · exact h
    · exact absurd (by simpa using h) hne
  · intro h
    refine ⟨by simp [tokenChar, h], ?_⟩
    rintro rfl
    rw [isAlphanum_apos] at h
    exact Bool.false_ne_true h

theorem wordCount_pos_iff (s : List Char) :
    0 < wordCount s ↔ ∃ c ∈ s, c.isAlphanum = true := by
  constructor
  · intro h
    obtain ⟨t, ht⟩ := List.length_pos_iff_exists_mem.mp h
    rw [wordsOf, List.mem_filter] at ht
    obtain ⟨hmem, hq⟩ := ht
    obtain ⟨f, hf, rfl⟩ := List.mem_map.mp hmem
    have hne : stripApos f ≠ [] := by
      intro hnil
      rw [hnil] at hq
      simp at hq
    have hex : ¬ ∀ c ∈ f, c = apos :=
      fun hall => hne ((stripApos_eq_nil_iff f).mpr hall)
    push_neg at hex
    obtain ⟨c, hcf, hcne⟩ := hex
    have hcs : c ∈ (splitOnP (fun c => !tokenChar c) s).flatten :=
      List.mem_flatten.mpr ⟨f, hf, hcf⟩
    rw [flatten_splitOnP, List.mem_filter] at hcs
    obtain ⟨hcs, htc⟩ := hcs
    exact ⟨c, hcs, (tokenChar_iff c).mp ⟨by simpa using htc, hcne⟩⟩
  · rintro ⟨c, hcs, halpha⟩
    obtain ⟨htc, hne⟩ := (tokenChar_iff c).mpr halpha
    have hmem : c ∈ (splitOnP (fun c => !tokenChar c) s).flatten := by
      rw [flatten_splitOnP, List.mem_filter]
      exact ⟨hcs, by simp [htc]⟩
    obtain ⟨f, hf, hcf⟩ := List.mem_flatten.mp hmem
    apply List.length_pos_iff_exists_mem.mpr
    refine ⟨stripApos f, ?_⟩
    rw [wordsOf, List.mem_filter]
    refine ⟨List.mem_map.mpr ⟨f, hf, rfl⟩, ?_⟩
    have hne' : stripApos f ≠ [] := by
      intro hnil
      exact hne ((stripApos_eq_nil_iff f).mp hnil c hcf)
    simpa [List.isEmpty_iff] using hne'

theorem isTerminator_not_alphanum (c : Char) (h : c.isAlphanum = true) :
    isTerminator c = false := by
  by_contra hne
  have ht : isTerminator c = true := Bool.not_eq_false _ |>.mp hne
  rw [isTerminator] at ht
  rcases Bool.or_eq_true _ _ |>.mp ht with h1 | h2
  · rcases Bool.or_eq_true _ _ |>.mp h1 with ha | hb
    · rw [show c = '.' by simpa using ha] at h
      exact absurd h (by decide)
    · rw [show c = '!' by simpa using hb] at h
      exact absurd h (by decide)
  · rw [show c = '?' by simpa using h2] at h
    exact absurd h (by decide)

theorem sentenceCount_pos_iff (s : List Char) :
    0 < sentenceCount s ↔ ∃ c ∈ s, c.isAlphanum = true := by
  rw [sentenceCount, sentencesOf]
  constructor
  · intro h
    obtain ⟨f, hf⟩ := List.length_pos_iff_exists_mem.mp h
    rw [List.mem_filter] at hf
    obtain ⟨hfmem, hany⟩ := hf
    obtain ⟨c, hcf, hc⟩ := List.any_eq_true.mp hany
    have := (exists_char_splitOnP isTerminator Char.isAlphanum s).mp ⟨f, hfmem, c, hcf, hc⟩
    obtain ⟨c, hcs, _, hcal⟩ := this
    exact ⟨c, hcs, hcal⟩
  · rintro ⟨c, hcs, halpha⟩
    obtain ⟨f, hfmem, c', hcf, hcal⟩ :=
      (exists_char_splitOnP isTerminator Char.isAlphanum s).mpr
        ⟨c, hcs, by simp [isTerminator_not_alphanum c halpha], halpha⟩
    apply List.length_pos_iff_exists_mem.mpr
    exact ⟨f, List.mem_filter.mpr ⟨hfmem, List.any_eq_true.mpr ⟨c', hcf, hcal⟩⟩⟩

theorem clamp01_bounds (x : ℚ) : 0 ≤ clamp01 x ∧ clamp01 x ≤ 1 :=
  ⟨le_max_left 0 _, max_le (by norm_num) (min_le_left 1 x)⟩

theorem uniqueRatioE_ok (s : List Char) :
    uniqueRatioE s = Except.ok (uniqueRatioOf s) := by
  rw [uniqueRatioE, uniqueRatioOf]
  split
  · rfl
  · rename_i h
    rw [qdivE, if_neg (Nat.cast_ne_zero.mpr h)]

theorem avgSentenceLengthE_ok (s : List Char) :
    avgSentenceLengthE s = Except.ok (avgSentenceLength s) := by
  rw [avgSentenceLengthE, avgSentenceLength]
  split
  · rfl
  · rename_i h
    rw [qdivE, if_neg (Nat.cast_ne_zero.mpr h)]

theorem fleschReadingEaseE_ok (s : List Char) :
    fleschReadingEaseE s = Except.ok (fleschReadingEase s) := by
  rw [fleschReadingEaseE, fleschReadingEase]
  split
  · rfl
  · rename_i h
    rw [avgSentenceLengthE_ok, qdivE, if_neg (Nat.cast_ne_zero.mpr h)]
    rfl

/-! ### The claims -/

/-- Claim C1: for every input, the two AI scores produced by the analysis are
bounded — `ai_likelihood ∈ [0,1]` and `ai_rigorous_score ∈ [0,1]`, with
clamping at the bounds. -/
theorem ai_scores_bounded (filename text : List Char) :
    0 ≤ (analyse filename text).ai_likelihood ∧
      (analyse filename text).ai_likelihood ≤ 1 ∧
      0 ≤ (analyse filename text).ai_rigorous_score ∧
      (analyse filename text).ai_rigorous_score ≤ 1 :=
  ⟨(clamp01_bounds _).1, (clamp01_bounds _).2, (clamp01_bounds _).1, (clamp01_bounds _).2⟩

/-- Claim C2: for every input text the Metrics satisfy
`unique_word_count ≤ word_count` and `0 ≤ unique_ratio ≤ 1`, where
unique_word_count counts the distinct lower-cased tokens and unique_ratio is
their quotient (0 when word_count = 0). -/
theorem unique_ratio_invariants (s : List Char) :
    (computeMetrics s).unique_word_count ≤ (computeMetrics s).word_count ∧
      0 ≤ (computeMetrics s).unique_ratio ∧ (computeMetrics s).unique_ratio ≤ 1 := by
  have hle : uniqueWordCount s ≤ wordCount s := by
    rw [uniqueWordCount, wordCount]
    calc (lowerWordsOf s).dedup.length
        ≤ (lowerWordsOf s).length := (List.dedup_sublist _).length_le
      _ = (wordsOf s).length := by rw [lowerWordsOf, List.length_map]
  refine ⟨hle, ?_, ?_⟩
  · show (0 : ℚ) ≤ uniqueRatioOf s
    rw [uniqueRatioOf]
    split
    · exact le_refl 0
    · positivity
  · show uniqueRatioOf s ≤ 1
    rw [uniqueRatioOf]
    split
    · norm_num
    · rename_i h
      have hpos : (0 : ℚ) < (wordCount s : ℚ) := by
        exact_mod_cast Nat.pos_of_ne_zero h
      rw [div_le_one hpos]
      exact_mod_cast hle

/-- Claim C3: the analysis is total — for every input (filename and text,
including empty or binary-looking text) the checked analysis, which signals an
error at any unguarded division, returns `Except.ok` of the analysis result
and never an error. -/
theorem analyse_total (filename text : List Char) :
    analyseE filename text = Except.ok (analyse filename text) := by
  unfold analyseE computeMetricsE analyse computeMetrics
  rw [uniqueRatioE_ok, avgSentenceLengthE_ok, fleschReadingEaseE_ok]
  rfl

/-- Claim C4: for the empty input every Metrics field is zero, and the checked
computation returns it without any error (no exception, no division by
zero). -/
theorem empty_input_zero_metrics :
    computeMetrics [] =
      { word_count := 0, unique_word_count := 0, unique_ratio := 0, sentence_count := 0,
        avg_sentence_length := 0, syllable_count := 0, flesch_reading_ease := 0 } ∧
      computeMetricsE [] = Except.ok (computeMetrics []) :=
  ⟨rfl, rfl⟩

/-- Claim C5: whenever word_count > 0, flesch_reading_ease equals
206.835 − 1.015 × avg_sentence_length − 84.6 × (syllable_count / word_count);
when word_count = 0 it equals 0. -/
theorem flesch_formula (s : List Char) :
    ((computeMetrics s).word_count ≠ 0 →
      (computeMetrics s).flesch_reading_ease =
        206835/1000 - 1015/1000 * (computeMetrics s).avg_sentence_length
          - 846/10 * (((computeMetrics s).syllable_count : ℚ) /
              ((computeMetrics s).word_count : ℚ))) ∧
    ((computeMetrics s).word_count = 0 → (computeMetrics s).flesch_reading_ease = 0) := by
  constructor
  · intro h
    have h' : wordCount s ≠ 0 := h
    show fleschReadingEase s = _
    rw [fleschReadingEase, if_neg h']
    rfl
  · intro h
    have h' : wordCount s = 0 := h
    show fleschReadingEase s = 0
    rw [fleschReadingEase, if_pos h']

/-- Witness for C5 at the concrete input "Hi.". -/
theorem flesch_formula_witness :
    (computeMetrics ('H' :: 'i' :: '.' :: [])).flesch_reading_ease =
      206835/1000 - 1015/1000 * (computeMetrics ('H' :: 'i' :: '.' :: [])).avg_sentence_length
        - 846/10 * (((computeMetrics ('H' :: 'i' :: '.' :: [])).syllable_count : ℚ) /
            ((computeMetrics ('H' :: 'i' :: '.' :: [])).word_count : ℚ)) :=
  (flesch_formula ('H' :: 'i' :: '.' :: [])).1 (by decide)

/-- Claim C6: on the input "The cat sat. The cat ran." the Metrics Engine
returns word_count = 6, unique_word_count = 4, sentence_count = 2 and
avg_sentence_length = 3. -/
theorem scenario_cat :
    (computeMetrics ("The cat sat. The cat ran.".toList)).word_count = 6 ∧
      (computeMetrics ("The cat sat. The cat ran.".toList)).unique_word_count = 4 ∧
      (computeMetrics ("The cat sat. The cat ran.".toList)).sentence_count = 2 ∧
      (computeMetrics ("The cat sat. The cat ran.".toList)).avg_sentence_length = 3 := by
  refine ⟨by decide, by decide, by decide, ?_⟩
  show avgSentenceLength ("The cat sat. The cat ran.".toList) = 3
  rw [avgSentenceLength,
    if_neg (by decide : ¬ sentenceCount ("The cat sat. The cat ran.".toList) = 0),
    (by decide : wordCount ("The cat sat. The cat ran.".toList) = 6),
    (by decide : sentenceCount ("The cat sat. The cat ran.".toList) = 2)]
  norm_num

/-- Claim C7: sentence_count ≥ 1 whenever word_count > 0 and sentence_count = 0
when word_count = 0, so avg_sentence_length = word_count / sentence_count never
divides by zero (the checked division returns `Except.ok`). -/
theorem sentence_count_spec (s : List Char) :
    (0 < wordCount s → 1 ≤ sentenceCount s) ∧
      (wordCount s = 0 → sentenceCount s = 0) ∧
      avgSentenceLengthE s = Except.ok (avgSentenceLength s) := by
  refine ⟨?_, ?_, avgSentenceLengthE_ok s⟩
  · intro h
    exact (sentenceCount_pos_iff s).mpr ((wordCount_pos_iff s).mp h)
  · intro h
    by_contra hne
    have hpos : 0 < sentenceCount s := Nat.pos_of_ne_zero hne
    have := (wordCount_pos_iff s).mpr ((sentenceCount_pos_iff s).mp hpos)
    omega

/-- Witness for C7: on "Hi." a word exists and a sentence is counted; on "?!"
no word exists and no sentence is counted. -/
theorem sentence_count_spec_witness :
    1 ≤ sentenceCount ('H' :: 'i' :: '.' :: []) ∧ sentenceCount ('?' :: '!' :: []) = 0 :=
  ⟨(sentence_count_spec ('H' :: 'i' :: '.' :: [])).1 (by decide),
    (sentence_count_spec ('?' :: '!' :: [])).2.1 (by decide)⟩

/-- Claim C8: every non-empty word is assigned at least one syllable by the
heuristic, and syllable_count is the sum of the per-word estimates over all
(lower-cased) words. -/
theorem syllables_min_one (w : List Char) (_hw : w ≠ []) (s : List Char) :
    1 ≤ syllablesOfWord w ∧
      (computeMetrics s).syllable_count = ((lowerWordsOf s).map syllablesOfWord).sum :=
  ⟨le_max_left 1 _, rfl⟩

/-- Witness for C8 at the concrete word "hi" and the text "Hi.". -/
theorem syllables_min_one_witness :
    1 ≤ syllablesOfWord ('h' :: 'i' :: []) ∧
      (computeMetrics ('H' :: 'i' :: '.' :: [])).syllable_count =
        ((lowerWordsOf ('H' :: 'i' :: '.' :: [])).map syllablesOfWord).sum :=
  syllables_min_one ('h' :: 'i' :: []) (by decide) ('H' :: 'i' :: '.' :: [])

/-- Claim C9: the autopilot stub is total — for a recognized (Python)
submission it returns the non-empty canned report, and for every other type it
returns the empty-string sentinel. -/
theorem autopilot_total (filename content : List Char) :
    (isPySubmission filename = true →
      autopilotStub filename content = autopilotReport ∧
        autopilotStub filename content ≠ []) ∧
    (isPySubmission filename = false → autopilotStub filename content = []) := by
  constructor
  · intro h
    rw [autopilotStub, if_pos h]
    exact ⟨rfl, by decide⟩
  · intro h
    rw [autopilotStub, if_neg (by simp [h])]

/-- Witness for C9 at the concrete filenames "main.py" and "main.txt". -/
theorem autopilot_total_witness :
    autopilotStub ("main.py".toList) [] ≠ [] ∧ autopilotStub ("main.txt".toList) [] = [] :=
  ⟨((autopilot_total ("main.py".toList) []).1 (by decide)).2,
    (autopilot_total ("main.txt".toList) []).2 (by decide)⟩

/-- Claim C10: the stored filename is the basename of the client filename with
every `/` replaced by `_` and every occurrence of `..` removed, and the result
holds neither a `/` character nor a `..` substring. -/
theorem safe_filename_sanitised (p : List Char) :
    safeFilename p = removeDotDot (replaceSlash (basename p)) ∧
      '/' ∉ safeFilename p ∧ ¬ (('.' :: '.' :: []) <:+: safeFilename p) := by
  refine ⟨rfl, ?_, ?_⟩
  · intro hmem
    exact not_mem_replaceSlash _ (mem_removeDotDot _ _ hmem)
  · rintro ⟨pre, suf, heq⟩
    refine not_dd_infix_of_hasDD (safeFilename p)
      (hasDD_removeDotDot (replaceSlash (basename p))) pre suf ?_
    simpa [List.append_assoc] using heq

end AIDetect
